import Mathlib

/-!
Verification of the DM installer (`packages/plugin-dm/sources/DmInstaller.ts`).

The installer is embedded shallowly:

* Portable paths (`PortablePath`) are modelled as lists of path segments
  (`Path`), with `ppath.resolve` / `ppath.relative` / `ppath.join` /
  `ppath.dirname` given their posix semantics on segment lists
  (`ppathResolve`, `ppathRelative`, ...).
* The filesystem (`xfs` plus the fetch result's `packageFs`) is modelled as
  an association list from absolute paths to file contents (`FS`);
  directories are implicit.  `xfs.copyPromise` with `overwrite: false`
  becomes `copyNoOverwrite`, `xfs.removeSync` with `recursive: true`
  becomes `fsRemoveTree`, `xfs.writeFilePromise` becomes `fsWrite`.
* The installer's private `dependencies` map (a JS `Map`, insertion
  ordered, `set` replacing in place) is an association list with
  `mapGet` / `mapSet`; the `Set<string>` of dependencies is an insertion
  ordered duplicate-free list with `setAdd`.
* `async` methods that can `throw` return `Except InstallError _`.

The helper module `./paths` is not part of the sources at hand; its four
functions are modelled from the spec (see their doc comments).
-/

set_option autoImplicit false

namespace DmInstaller

/-- A portable path, as its list of segments.  Absolute paths are segment
lists rooted at the filesystem root; relative paths are plain segment
lists, where the segment `".."` points at the parent directory. -/
abbrev Path := List String

/-- A path segment list is `dotdotFree` when none of its segments is the
parent-directory marker; normalized absolute paths have this shape. -/
def dotdotFree (p : Path) : Bool :=
  p.all (fun s => s ≠ "..")

/-- One step of posix path normalization: a `".."` segment pops the last
segment accumulated so far, any other segment is appended. -/
def normStep (acc : Path) (seg : String) : Path :=
  if seg = ".." then acc.dropLast else acc ++ [seg]

/-- Posix normalization of a segment list (resolution of `".."` markers). -/
def normalizePath (p : Path) : Path :=
  p.foldl normStep []

/-- `ppath.resolve(base, rel)` for an absolute `base` and relative `rel`:
concatenate and normalize. -/
def ppathResolve (base rel : Path) : Path :=
  normalizePath (base ++ rel)

/-- Length of the longest common prefix of two segment lists. -/
def commonLen : Path → Path → Nat
  | a :: as, b :: bs => if a = b then commonLen as bs + 1 else 0
  | _, _ => 0

/-- `ppath.relative(src, dst)`: climb out of the non-shared part of `src`
with `".."` segments, then descend into the non-shared part of `dst`. -/
def ppathRelative (src dst : Path) : Path :=
  List.replicate (src.length - commonLen src dst) ".." ++ dst.drop (commonLen src dst)

/-! ## Filesystem model -/

/-- A filesystem: an association list from absolute file paths to file
contents, looked up front to back.  Directories are implicit. -/
abbrev FS := List (Path × String)

/-- Content of the file at `p`, if any (first binding wins). -/
def fsLookup (fs : FS) (p : Path) : Option String :=
  match fs with
  | [] => none
  | (q, c) :: rest => if q = p then some c else fsLookup rest p

/-- `xfs.existsSync`. -/
def fsExists (fs : FS) (p : Path) : Bool :=
  (fsLookup fs p).isSome

/-- `xfs.writeFilePromise`: (over)write one file. -/
def fsWrite (fs : FS) (p : Path) (c : String) : FS :=
  (p, c) :: fs.filter (fun e => e.1 ≠ p)

/-- `root` is `p` itself or an ancestor directory of `p`. -/
def pathUnder (root p : Path) : Bool :=
  root.isPrefixOf p

/-- `xfs.removeSync(root, recursive: true)`: drop every file at or below
`root`; removing a missing tree is not an error. -/
def fsRemoveTree (root : Path) (fs : FS) : FS :=
  fs.filter (fun e => !pathUnder root e.1)

/-- `xfs.copyPromise(dst, src, baseFs, overwrite: false)`: the fetched
package content is the association list `files` of paths relative to the
fetch prefix; each file is written below `dst` unless the destination
file already exists (no-clobber). -/
def copyNoOverwrite (dst : Path) (files : List (Path × String)) (fs : FS) : FS :=
  match files with
  | [] => fs
  | (r, c) :: rest =>
    copyNoOverwrite dst rest
      (if fsExists fs (dst ++ r) then fs else fs ++ [(dst ++ r, c)])

/-! ## Host data model (`@yarnpkg/core`) -/

/-- `Locator`: a resolved package identity.  Virtual instantiations are
encoded in the `reference` (a `virtual:` prefix), as in `structUtils`. -/
structure Locator where
  name : String
  reference : String
  locatorHash : String
  deriving DecidableEq, Repr

/-- `LinkType` of a resolved package. -/
inductive LinkType
  | hard
  | soft
  deriving DecidableEq, Repr

/-- `Package`: a locator plus its declared link type (only the fields the
installer reads are modelled). -/
structure Package extends Locator where
  linkType : LinkType
  deriving DecidableEq, Repr

/-- `structUtils.isVirtualLocator`: the reference starts with the
`virtual:` protocol (checked on the character list, which the kernel can
evaluate). -/
def isVirtualLocator (l : Locator) : Bool :=
  List.isPrefixOf "virtual:".data l.reference.data

/-- `structUtils.prettyLocator` (host helper, only used in an error
message): modelled as `name@reference`. -/
def prettyLocator (l : Locator) : String :=
  l.name ++ "@" ++ l.reference

/-- `Descriptor`: only its presence matters (the installer ignores the
descriptor half of each dependency edge). -/
structure Descriptor where
  descriptorHash : String
  deriving DecidableEq, Repr

/-- `FetchResult`: the real path of the fetched content filesystem, the
prefix path into it, and the file tree below that prefix (paths relative
to the prefix). -/
structure FetchResult where
  realPath : Path
  prefixPath : Path
  files : List (Path × String)
  deriving DecidableEq, Repr

/-- The slice of `Project` the installer reads: the project root, the
workspace membership predicate (by locator hash, as
`tryWorkspaceByLocator` resolves a locator to a workspace of the
project), and the `dmLinker` configuration value. -/
structure Project where
  cwd : Path
  workspaceHashes : List String
  dmLinker : Bool
  deriving DecidableEq, Repr

/-- `opts.project.tryWorkspaceByLocator(pkg)` coerced to a boolean, as in
`Boolean(...)` at the call site. -/
def tryWorkspaceByLocator (project : Project) (pkg : Package) : Bool :=
  project.workspaceHashes.contains pkg.locatorHash

/-! ## Path helpers (`./paths`) -/

/-- Modelled from the spec: the sanitization of a package identity used
for its vendor directory name only needs to yield a single safe path
segment; the degenerate names that are not usable as a fresh directory
name are mapped away. -/
def sanitizeIdentity (s : String) : String :=
  if s = "" ∨ s = "." ∨ s = ".." then "_" else s

/-- Modelled from the spec: `vendorRoot(project)` is a fixed vendor
directory directly under the project root (the spec's concrete scenario
names it `.vendor`). -/
def getVendorPath (project : Project) : Path :=
  project.cwd ++ [".vendor"]

/-- Modelled from the spec: `vendoredPackagePath(project, identity)` is
`vendorRoot/<sanitized-identity>`, the identity being the locator hash. -/
def getVendoredPackagePath (project : Project) (pkg : Package) : Path :=
  getVendorPath project ++ [sanitizeIdentity pkg.locatorHash]

/-- Modelled from the spec: the generated path map lives at a fixed path
under the vendor root. -/
def getPathmapPath (project : Project) : Path :=
  getVendorPath project ++ ["pathmap.json"]

/-- Modelled from the spec: the aggregated include file lives at a fixed
project-relative location; the spec's concrete scenario places it in the
project root (the include paths it lists are relative to the root). -/
def getIncludePath (project : Project) : Path :=
  project.cwd ++ ["includes.dm"]

/-! ## Installer state -/

/-- One entry of the installer's private `dependencies` map. -/
structure LedgerEntry where
  packageLocator : Package
  packageLocation : Path
  packageDependencies : List String
  deriving DecidableEq, Repr

/-- The installer's mutable state: the `enabled` flag read from the
configuration at construction, and the `dependencies` map (insertion
ordered, as a JS `Map`). -/
structure InstallerState where
  enabled : Bool
  dependencies : List (String × LedgerEntry)
  deriving DecidableEq, Repr

/-- `Map.prototype.get`. -/
def mapGet (m : List (String × LedgerEntry)) (k : String) : Option LedgerEntry :=
  match m with
  | [] => none
  | (k', v) :: rest => if k' = k then some v else mapGet rest k

/-- `Map.prototype.set`: replace in place when the key is present (the
iteration position of an existing key is kept), append otherwise. -/
def mapSet (m : List (String × LedgerEntry)) (k : String) (v : LedgerEntry) :
    List (String × LedgerEntry) :=
  match m with
  | [] => [(k, v)]
  | (k', v') :: rest =>
    if k' = k then (k, v) :: rest else (k', v') :: mapSet rest k v

/-- `Set.prototype.add` on an insertion-ordered duplicate-free list. -/
def setAdd (s : List String) (x : String) : List String :=
  if x ∈ s then s else s ++ [x]

/-! ## The installer operations -/

/-- Errors the installer can throw: `UsageError` from clipanion (the
feature-disabled configuration error) and the assertion `Error` thrown on
an unregistered locator. -/
inductive InstallError
  | usageError (message : String)
  | assertionFailed (message : String)
  deriving DecidableEq, Repr

/-- The message of the `UsageError` thrown when `dmLinker` is not set. -/
def featureDisabledMessage : String :=
  "Installing DM packages requires \"dmLinker: true\" in .yarnrc.yml"

/-- The value returned by `installPackage` (the build directive is always
`null`). -/
structure InstallPackageResult where
  packageLocation : Path
  buildDirective : Option Unit
  deriving DecidableEq, Repr

/-- `DmInstaller.installPackage`.  Returns the new installer state, the
new filesystem and the result, or the thrown error. -/
def installPackage (opts : Project) (st : InstallerState) (fs : FS)
    (pkg : Package) (fetchResult : FetchResult) :
    Except InstallError (InstallerState × FS × InstallPackageResult) :=
  if st.enabled = false then
    .error (.usageError featureDisabledMessage)
  else
    let isWorkspace : Bool := tryWorkspaceByLocator opts pkg
    let isHardLink : Bool := (pkg.linkType == LinkType.hard) && !isWorkspace
    let vendorLocation := getVendoredPackagePath opts pkg
    let fs' := if isHardLink then copyNoOverwrite vendorLocation fetchResult.files fs else fs
    let packageLocation :=
      if isHardLink then vendorLocation
      else ppathResolve fetchResult.realPath fetchResult.prefixPath
    let st' : InstallerState :=
      { st with
        dependencies :=
          mapSet st.dependencies pkg.locatorHash
            ⟨pkg, packageLocation, []⟩ }
    .ok (st', fs', ⟨packageLocation, none⟩)

/-- `DmInstaller.attachInternalDependencies`. -/
def attachInternalDependencies (_opts : Project) (st : InstallerState)
    (locator : Locator) (dependencies : List (Descriptor × Locator)) :
    Except InstallError InstallerState :=
  match mapGet st.dependencies locator.locatorHash with
  | none =>
    .error (.assertionFailed
      ("Assertion failed: Expected locator to be registered (" ++
        prettyLocator locator ++ ")"))
  | some entry =>
    let deps :=
      dependencies.foldl (fun s d => setAdd s d.2.locatorHash)
        entry.packageDependencies
    .ok
      { st with
        dependencies :=
          mapSet st.dependencies locator.locatorHash
            { entry with packageDependencies := deps } }

/-! ## Artifact generation and finalize -/

/-- Render a relative segment list as a posix path string. -/
def renderPath (p : Path) : String :=
  String.intercalate "/" p

/-- The data object built by `writePathMap`: identity keys mapped to the
final location's path relative to the project root, in ledger order. -/
def writePathMapData (opts : Project) (st : InstallerState) :
    List (String × Path) :=
  st.dependencies.map (fun e => (e.1, ppathRelative opts.cwd e.2.packageLocation))

/-- `JSON.stringify(data, null, 2)` plus trailing newline, for the
string-keyed path map object. -/
def renderPathMapJson (data : List (String × Path)) : String :=
  if data = [] then "\x7b\x7d\n" else
    "\x7b\n" ++
      String.intercalate ",\n"
        (data.map (fun e => "  \"" ++ e.1 ++ "\": \"" ++ renderPath e.2 ++ "\"")) ++
      "\n\x7d\n"

/-- `DmInstaller.writePathMap`: its effect on the filesystem. -/
def writePathMap (opts : Project) (st : InstallerState) (fs : FS) : FS :=
  fsWrite fs (getPathmapPath opts) (renderPathMapJson (writePathMapData opts st))

/-- The `includeList` loop of `DmInstaller.writeIncludes`: walk the ledger
in order; a package whose location lacks an `includes.dm` file is skipped
(`continue`), otherwise the manifest's path relative to the include
file's directory is collected. -/
def buildIncludeList (fs : FS) (includeDirName : Path) :
    List (String × LedgerEntry) → List Path
  | [] => []
  | e :: rest =>
    let packageIncludePath := e.2.packageLocation ++ ["includes.dm"]
    if fsExists fs packageIncludePath then
      ppathRelative includeDirName packageIncludePath ::
        buildIncludeList fs includeDirName rest
    else
      buildIncludeList fs includeDirName rest

/-- The 4-line auto-generated banner of the include file. -/
def includeBanner : String :=
  "/*!\n" ++
  " * This file is auto generated by DM installer (do not edit).\n" ++
  " */\n" ++
  "\n"

/-- Concatenation of a list of strings, front to back (the repeated
`content += ...` of the source). -/
def strJoin : List String → String
  | [] => ""
  | s :: rest => s ++ strJoin rest

/-- The content written by `DmInstaller.writeIncludes`: the banner, then
one `#include` directive per collected path.  (The final statement of the
source, `content == \x60\n\x60`, is a comparison with a discarded result,
so it contributes nothing.) -/
def writeIncludesContent (opts : Project) (st : InstallerState) (fs : FS) : String :=
  includeBanner ++
    strJoin
      ((buildIncludeList fs (getIncludePath opts).dropLast st.dependencies).map
        (fun p => "#include \"" ++ renderPath p ++ "\"\n"))

/-- `DmInstaller.writeIncludes`: its effect on the filesystem. -/
def writeIncludes (opts : Project) (st : InstallerState) (fs : FS) : FS :=
  fsWrite fs (getIncludePath opts) (writeIncludesContent opts st fs)

/-- `DmInstaller.finalizeInstall`: when the feature is disabled, remove
the vendor tree; otherwise write the include file, then the path map.
The returned `FinalizeInstallData` is the empty record either way, so
only the filesystem effect is modelled. -/
def finalizeInstall (opts : Project) (st : InstallerState) (fs : FS) : FS :=
  if st.enabled = false then
    fsRemoveTree (getVendorPath opts) fs
  else
    writePathMap opts st (writeIncludes opts st fs)

/-! ## Whole runs -/

/-- One host-driven lifecycle call before finalize. -/
inductive Op
  | installOp (pkg : Package) (fetchResult : FetchResult)
  | attachOp (locator : Locator) (dependencies : List (Descriptor × Locator))
  deriving Repr

/-- Apply one lifecycle call; a thrown error leaves installer state and
filesystem unchanged (both methods throw before any mutation). -/
def applyOp (opts : Project) (s : InstallerState × FS) (op : Op) :
    InstallerState × FS :=
  match op with
  | .installOp pkg fetchResult =>
    match installPackage opts s.1 s.2 pkg fetchResult with
    | .ok (st, fs, _) => (st, fs)
    | .error _ => s
  | .attachOp locator dependencies =>
    match attachInternalDependencies opts s.1 locator dependencies with
    | .ok st => (st, s.2)
    | .error _ => s

/-- A run: a sequence of lifecycle calls from a starting state. -/
def runOps (opts : Project) (s : InstallerState × FS) (ops : List Op) :
    InstallerState × FS :=
  ops.foldl (applyOp opts) s

/-- The installer state at construction: the flag is read from the
configuration, the ledger starts empty. -/
def initState (opts : Project) : InstallerState :=
  ⟨opts.dmLinker, []⟩

/-- Left-biased choice on optional file contents. -/
def optOr (a b : Option String) : Option String :=
  match a with
  | some c => some c
  | none => b

/-- The `isHardLink` decision of `installPackage`: declared link type is
hard and the package is not a workspace member. -/
def isHardLinkDecision (opts : Project) (pkg : Package) : Bool :=
  (pkg.linkType == LinkType.hard) && !(tryWorkspaceByLocator opts pkg)

/-- The final location `installPackage` computes for a package. -/
def installLocation (opts : Project) (pkg : Package) (fetchResult : FetchResult) : Path :=
  if isHardLinkDecision opts pkg then getVendoredPackagePath opts pkg
  else ppathResolve fetchResult.realPath fetchResult.prefixPath

/-- The filesystem `installPackage` leaves behind. -/
def installFs (opts : Project) (fs : FS) (pkg : Package) (fetchResult : FetchResult) : FS :=
  if isHardLinkDecision opts pkg then
    copyNoOverwrite (getVendoredPackagePath opts pkg) fetchResult.files fs
  else fs

/-! ## Concrete instances used in counterexamples and witnesses -/

/-- Project root `/proj`, no workspaces, feature enabled. -/
def c1opts : Project := ⟨["proj"], [], true⟩

/-- A hard-linked, non-workspace package. -/
def c1pkg : Package := ⟨⟨"pkgA", "npm:1.0.0", "hashA"⟩, LinkType.hard⟩

/-- Fetched content: one file `a` with content `new`. -/
def c1fetch : FetchResult := ⟨["cache", "pkgA"], [], [(["a"], "new")]⟩

/-- A vendor destination already holding a hand-edited `a`. -/
def c1fs : FS := [(["proj", ".vendor", "hashA", "a"], "old")]

/-- Installer state with the feature enabled and an empty ledger. -/
def c1start : InstallerState := ⟨true, []⟩

/-- The outcome of installing `c1pkg` over the pre-populated vendor tree. -/
def c1after : InstallerState × FS × InstallPackageResult :=
  (installPackage c1opts c1start c1fs c1pkg c1fetch).toOption.getD
    ⟨⟨false, []⟩, [], ⟨[], none⟩⟩

/-- The outcome of installing `c1pkg` on an empty filesystem. -/
def c1w : InstallerState × FS × InstallPackageResult :=
  (installPackage c1opts c1start [] c1pkg c1fetch).toOption.getD
    ⟨⟨false, []⟩, [], ⟨[], none⟩⟩

def c2opts : Project := ⟨["proj"], [], true⟩

def c2pkg : Package := ⟨⟨"pkgB", "npm:2.0.0", "hashB"⟩, LinkType.hard⟩

def c2fetch : FetchResult :=
  ⟨["cache", "pkgB"], [], [(["b.dm"], "bee"), (["sub", "c.dm"], "cee")]⟩

/-- The outcome of the first `installPackage` call for `c2pkg`. -/
def c2first : InstallerState × FS × InstallPackageResult :=
  (installPackage c2opts ⟨true, []⟩ [] c2pkg c2fetch).toOption.getD
    ⟨⟨false, []⟩, [], ⟨[], none⟩⟩

def c3opts : Project := ⟨["proj"], ["hashWs"], true⟩

/-- A workspace package (its hash is in `workspaceHashes`). -/
def c3pkg : Package := ⟨⟨"wsA", "workspace:packages/wsA", "hashWs"⟩, LinkType.soft⟩

def c3fetch : FetchResult := ⟨["proj", "packages"], ["wsA"], []⟩

/-- The outcome of installing the workspace package `c3pkg`. -/
def c3after : InstallerState × FS × InstallPackageResult :=
  (installPackage c3opts ⟨true, []⟩ [] c3pkg c3fetch).toOption.getD
    ⟨⟨false, []⟩, [], ⟨[], none⟩⟩

def c6opts : Project := ⟨["proj"], [], true⟩

def c6pkg : Package := ⟨⟨"pkgC", "npm:3.0.0", "hashC"⟩, LinkType.hard⟩

def c6fetch : FetchResult := ⟨["cache", "pkgC"], [], []⟩

def c7opts : Project := ⟨["proj"], [], false⟩

/-- A filesystem holding a stale vendored file and an unrelated file. -/
def c7fs : FS :=
  [(["proj", ".vendor", "hashA", "a"], "stale"), (["proj", "keep.txt"], "kept")]

def c8opts : Project := ⟨["proj"], [], true⟩

def c8pkg : Package := ⟨⟨"pkgD", "npm:4.0.0", "hashD"⟩, LinkType.hard⟩

def c8dep : Locator := ⟨"pkgE", "npm:5.0.0", "hashE"⟩

/-- A ledger holding only `c8pkg`, placed at its vendor location. -/
def c8st : InstallerState :=
  ⟨true, [("hashD", ⟨c8pkg, ["proj", ".vendor", "hashD"], []⟩)]⟩

def c9opts : Project := ⟨["proj"], [], true⟩

/-- A non-virtual package. -/
def c9p1 : Package := ⟨⟨"pkgF", "npm:6.0.0", "hashF"⟩, LinkType.hard⟩

/-- The same package as a virtual instantiation (only the reference's
`virtual:` marker differs). -/
def c9p2 : Package := ⟨⟨"pkgF", "virtual:abcd#npm:6.0.0", "hashF"⟩, LinkType.hard⟩

def c9fetch : FetchResult := ⟨["cache", "pkgF"], [], [(["f.dm"], "eff")]⟩

/-- Outcome of installing the non-virtual `c9p1`. -/
def c9after1 : InstallerState × FS × InstallPackageResult :=
  (installPackage c9opts ⟨true, []⟩ [] c9p1 c9fetch).toOption.getD
    ⟨⟨false, []⟩, [], ⟨[], none⟩⟩

/-- Outcome of installing the virtual `c9p2`. -/
def c9after2 : InstallerState × FS × InstallPackageResult :=
  (installPackage c9opts ⟨true, []⟩ [] c9p2 c9fetch).toOption.getD
    ⟨⟨false, []⟩, [], ⟨[], none⟩⟩

def c10opts : Project := ⟨["proj"], [], true⟩

def c10pkg : Package := ⟨⟨"pkgG", "npm:7.0.0", "hashG"⟩, LinkType.hard⟩

def c10fetch : FetchResult := ⟨["cache", "pkgG"], [], [(["g.dm"], "gee")]⟩

def c10dep : Locator := ⟨"pkgH", "npm:8.0.0", "hashH"⟩

/-- Outcome of the first `installPackage` call for `c10pkg`. -/
def c10first : InstallerState × FS × InstallPackageResult :=
  (installPackage c10opts ⟨true, []⟩ [] c10pkg c10fetch).toOption.getD
    ⟨⟨false, []⟩, [], ⟨[], none⟩⟩

/-- State after attaching one internal dependency to `c10pkg`. -/
def c10attached : InstallerState :=
  (attachInternalDependencies c10opts c10first.1 c10pkg.toLocator
    [(⟨"descH"⟩, c10dep)]).toOption.getD ⟨false, []⟩

/-- Outcome of re-installing `c10pkg` after the dependency was attached. -/
def c10second : InstallerState × FS × InstallPackageResult :=
  (installPackage c10opts c10attached c10first.2.1 c10pkg c10fetch).toOption.getD
    ⟨⟨false, []⟩, [], ⟨[], none⟩⟩

def c4opts : Project := ⟨["proj"], ["hashWs"], true⟩

def c4pkgHard : Package := ⟨⟨"pkgA", "npm:1.0.0", "hashA"⟩, LinkType.hard⟩

def c4pkgWs : Package := ⟨⟨"wsA", "workspace:packages/wsA", "hashWs"⟩, LinkType.soft⟩

def c4fetchHard : FetchResult := ⟨["cache", "pkgA"], [], [(["a.dm"], "aye")]⟩

def c4fetchWs : FetchResult := ⟨["proj", "packages"], ["wsA"], []⟩

/-- A two-package run: one vendored package, one workspace member. -/
def c4ops : List Op :=
  [.installOp c4pkgHard c4fetchHard, .installOp c4pkgWs c4fetchWs]

/-- The state after the `c4ops` run on an empty filesystem. -/
def c4run : InstallerState × FS := runOps c4opts (initState c4opts, []) c4ops

def c5opts : Project := ⟨["proj"], [], true⟩

/-- A ledger with one package shipping `includes.dm` and one without. -/
def c5st : InstallerState :=
  ⟨true,
    [("hashA", ⟨c4pkgHard, ["proj", ".vendor", "hashA"], []⟩),
     ("hashB", ⟨c2pkg, ["proj", ".vendor", "hashB"], []⟩)]⟩

def c5fs : FS := [(["proj", ".vendor", "hashA", "includes.dm"], "#define A\n")]

/-- Every package location recorded in the ledger is a normalized
absolute path (no `".."` segments). -/
def ledgerNormalized (st : InstallerState) : Prop :=
  ∀ k e, (k, e) ∈ st.dependencies → dotdotFree e.packageLocation = true

/-! ## Helper lemmas: paths -/

theorem foldl_normStep_no_dotdot (xs : Path) (acc : Path)
    (h : ∀ s ∈ xs, s ≠ "..") :
    List.foldl normStep acc xs = acc ++ xs := by
  induction xs generalizing acc with
  | nil => simp
  | cons a as ih =>
    have ha : a ≠ ".." := h a (List.mem_cons_self a as)
    have hs : ∀ s ∈ as, s ≠ ".." := fun s hm => h s (List.mem_cons_of_mem a hm)
    simp [List.foldl_cons, normStep, ha, ih _ hs]

theorem foldl_normStep_dotdots (xs : Path) (acc : Path) :
    List.foldl normStep (acc ++ xs) (List.replicate xs.length "..") = acc := by
  induction xs using List.reverseRecOn with
  | nil => simp
  | append_singleton ys z ih =>
    have hlen : (ys ++ [z]).length = ys.length + 1 := by simp
    rw [hlen, List.replicate_succ, List.foldl_cons]
    have hpop : normStep (acc ++ (ys ++ [z])) ".." = acc ++ ys := by
      simp [normStep, ← List.append_assoc, List.dropLast_concat]
    rw [hpop]
    exact ih

theorem commonLen_take_eq (a b : Path) :
    a.take (commonLen a b) = b.take (commonLen a b) := by
  induction a generalizing b with
  | nil => cases b <;> simp [commonLen]
  | cons x xs ih =>
    cases b with
    | nil => simp [commonLen]
    | cons y ys =>
      by_cases hxy : x = y
      · simp [commonLen, hxy, ih ys]
      · simp [commonLen, hxy]

theorem commonLen_le_left (a b : Path) : commonLen a b ≤ a.length := by
  induction a generalizing b with
  | nil => cases b <;> simp [commonLen]
  | cons x xs ih =>
    cases b with
    | nil => simp [commonLen]
    | cons y ys =>
      by_cases hxy : x = y
      · simpa [commonLen, hxy, Nat.succ_le_succ_iff] using ih ys
      · simp [commonLen, hxy]

/-- Resolving a relative path computed by `ppathRelative` against the path
it was computed from recovers the target, provided both endpoints are
normalized (contain no `".."` segments).  This is the round-trip fact the
generated path map relies on. -/
theorem ppathResolve_ppathRelative (src dst : Path)
    (hsrc : dotdotFree src = true) (hdst : dotdotFree dst = true) :
    ppathResolve src (ppathRelative src dst) = dst := by
  have hsrc' : ∀ s ∈ src, s ≠ ".." := by
    intro s hs
    exact of_decide_eq_true (List.all_eq_true.mp hsrc s hs)
  have hdst' : ∀ s ∈ dst, s ≠ ".." := by
    intro s hs
    exact of_decide_eq_true (List.all_eq_true.mp hdst s hs)
  have hlen : src.length - commonLen src dst = (src.drop (commonLen src dst)).length := by
    simp [List.length_drop]
  have h1 := foldl_normStep_dotdots (src.drop (commonLen src dst)) (src.take (commonLen src dst))
  rw [List.take_append_drop] at h1
  rw [← hlen] at h1
  have hdrop : ∀ s ∈ dst.drop (commonLen src dst), s ≠ ".." := by
    intro s hs
    exact hdst' s (List.mem_of_mem_drop hs)
  unfold ppathResolve ppathRelative normalizePath
  rw [← List.append_assoc, List.foldl_append, List.foldl_append]
  rw [foldl_normStep_no_dotdot src [] hsrc', List.nil_append]
  rw [h1, commonLen_take_eq src dst, foldl_normStep_no_dotdot _ _ hdrop,
    List.take_append_drop]

/-- `normalizePath` never emits a `".."` segment. -/
theorem dotdotFree_normalizePath (p : Path) :
    dotdotFree (normalizePath p) = true := by
  suffices h : ∀ acc : Path, dotdotFree acc = true →
      dotdotFree (List.foldl normStep acc p) = true by
    exact h [] rfl
  induction p with
  | nil => intro acc hacc; simpa using hacc
  | cons a as ih =>
    intro acc hacc
    rw [List.foldl_cons]
    apply ih
    unfold normStep
    by_cases ha : a = ".."
    · simp only [ha, if_pos rfl]
      have : (acc.dropLast).Sublist acc := List.dropLast_sublist acc
      rw [dotdotFree] at hacc ⊢
      exact List.all_eq_true.mpr fun s hs =>
        List.all_eq_true.mp hacc s (this.mem hs)
    · rw [if_neg ha, dotdotFree]
      have hmem : ∀ x ∈ acc ++ [a], x ≠ ".." := by
        intro x hx
        rcases List.mem_append.mp hx with h | h
        · exact of_decide_eq_true (List.all_eq_true.mp hacc x h)
        · rcases List.mem_singleton.mp h with rfl
          exact ha
      exact List.all_eq_true.mpr fun x hx => decide_eq_true (hmem x hx)

/-! ## Helper lemmas: filesystem -/

theorem fsLookup_append (a b : FS) (p : Path) :
    fsLookup (a ++ b) p = optOr (fsLookup a p) (fsLookup b p) := by
  induction a with
  | nil => simp [fsLookup, optOr]
  | cons e rest ih =>
    rcases e with ⟨q, c⟩
    by_cases hq : q = p
    · simp [fsLookup, hq, optOr]
    · simp [fsLookup, hq, ih]

theorem fsLookup_singleton (q : Path) (c : String) (p : Path) :
    fsLookup [(q, c)] p = if q = p then some c else none := by
  by_cases hq : q = p <;> simp [fsLookup, hq]

theorem append_left_path_inj (dst r0 r : Path) :
    (dst ++ r0 = dst ++ r) ↔ r0 = r := by
  constructor
  · exact fun h => List.append_cancel_left h
  · intro h
    rw [h]

theorem fsLookup_copyNoOverwrite (dst : Path) (files : List (Path × String))
    (fs : FS) (r : Path) :
    fsLookup (copyNoOverwrite dst files fs) (dst ++ r) =
      optOr (fsLookup fs (dst ++ r)) (fsLookup files r) := by
  induction files generalizing fs with
  | nil =>
    rcases h : fsLookup fs (dst ++ r) with _ | c <;>
      simp [copyNoOverwrite, fsLookup, optOr, h]
  | cons f rest ih =>
    rcases f with ⟨r0, c0⟩
    by_cases hex : fsExists fs (dst ++ r0) = true
    · rw [copyNoOverwrite, if_pos hex, ih]
      rcases Option.isSome_iff_exists.mp hex with ⟨c', hc'⟩
      by_cases hr : r0 = r
      · subst hr
        simp [hc', fsLookup, optOr]
      · simp [fsLookup, hr]
    · rw [copyNoOverwrite, if_neg hex, ih]
      rw [fsLookup_append, fsLookup_singleton]
      by_cases hr : r0 = r
      · subst hr
        have hnone : fsLookup fs (dst ++ r0) = none := by
          rcases h : fsLookup fs (dst ++ r0) with _ | c'
          · rfl
          · exact absurd (by simp [fsExists, h]) hex
        simp [hnone, optOr, fsLookup]
      · have hne : ¬ (dst ++ r0 = dst ++ r) := fun h =>
          hr ((append_left_path_inj dst r0 r).mp h)
        simp [hne, hr, fsLookup, optOr]
        rcases fsLookup fs (dst ++ r) with _ | c' <;> simp [optOr]

theorem fsLookup_copyNoOverwrite_of_some (dst : Path)
    (files : List (Path × String)) (fs : FS) (p : Path) (c : String)
    (h : fsLookup fs p = some c) :
    fsLookup (copyNoOverwrite dst files fs) p = some c := by
  induction files generalizing fs with
  | nil => simpa [copyNoOverwrite] using h
  | cons f rest ih =>
    rcases f with ⟨r0, c0⟩
    by_cases hex : fsExists fs (dst ++ r0) = true
    · rw [copyNoOverwrite, if_pos hex]
      exact ih fs h
    · rw [copyNoOverwrite, if_neg hex]
      apply ih
      rw [fsLookup_append, h]
      rfl

theorem copyNoOverwrite_eq_self (dst : Path) (files : List (Path × String))
    (fs : FS) (h : ∀ r c, (r, c) ∈ files → fsExists fs (dst ++ r) = true) :
    copyNoOverwrite dst files fs = fs := by
  induction files with
  | nil => rfl
  | cons f rest ih =>
    rcases f with ⟨r0, c0⟩
    have hex : fsExists fs (dst ++ r0) = true :=
      h r0 c0 (List.mem_cons_self _ _)
    rw [copyNoOverwrite, if_pos hex]
    exact ih fun r c hm => h r c (List.mem_cons_of_mem _ hm)

theorem fsLookup_isSome_of_mem (files : List (Path × String)) (r : Path)
    (c : String) (h : (r, c) ∈ files) :
    (fsLookup files r).isSome = true := by
  induction files with
  | nil => cases h
  | cons f rest ih =>
    rcases f with ⟨r0, c0⟩
    by_cases hr : r0 = r
    · simp [fsLookup, hr]
    · rcases List.mem_cons.mp h with heq | hmem
      · cases heq
        exact absurd rfl hr
      · simpa [fsLookup, hr] using ih hmem

theorem fsLookup_fsRemoveTree (root : Path) (fs : FS) (p : Path) :
    fsLookup (fsRemoveTree root fs) p =
      if pathUnder root p = true then none else fsLookup fs p := by
  induction fs with
  | nil => by_cases hp : pathUnder root p = true <;> simp [fsRemoveTree, fsLookup, hp]
  | cons e rest ih =>
    rcases e with ⟨q, c⟩
    by_cases hq : pathUnder root q = true
    · have hfilter : fsRemoveTree root ((q, c) :: rest) = fsRemoveTree root rest := by
        simp [fsRemoveTree, List.filter_cons, hq]
      rw [hfilter, ih]
      by_cases hqp : q = p
      · subst hqp
        simp [hq]
      · simp [fsLookup, hqp]
    · have hfilter : fsRemoveTree root ((q, c) :: rest) =
          (q, c) :: fsRemoveTree root rest := by
        simp [fsRemoveTree, List.filter_cons, hq]
      rw [hfilter]
      by_cases hqp : q = p
      · subst hqp
        simp [fsLookup, hq]
      · simp [fsLookup, hqp, ih]

/-! ## Helper lemmas: ledger map and dependency set -/

theorem mapGet_mapSet_self (m : List (String × LedgerEntry)) (k : String)
    (v : LedgerEntry) : mapGet (mapSet m k v) k = some v := by
  induction m with
  | nil => simp [mapSet, mapGet]
  | cons e rest ih =>
    rcases e with ⟨k', v'⟩
    by_cases hk : k' = k
    · simp [mapSet, hk, mapGet]
    · simp [mapSet, hk, mapGet, ih]

theorem mem_mapSet (m : List (String × LedgerEntry)) (k : String)
    (v : LedgerEntry) (k' : String) (e : LedgerEntry)
    (h : (k', e) ∈ mapSet m k v) : (k' = k ∧ e = v) ∨ (k', e) ∈ m := by
  induction m with
  | nil =>
    rcases List.mem_singleton.mp h with heq
    exact Or.inl ⟨congrArg Prod.fst heq, congrArg Prod.snd heq⟩
  | cons f rest ih =>
    rcases f with ⟨k0, v0⟩
    by_cases hk : k0 = k
    · rw [mapSet, if_pos hk] at h
      rcases List.mem_cons.mp h with heq | hmem
      · exact Or.inl ⟨congrArg Prod.fst heq, congrArg Prod.snd heq⟩
      · exact Or.inr (List.mem_cons_of_mem _ hmem)
    · rw [mapSet, if_neg hk] at h
      rcases List.mem_cons.mp h with heq | hmem
      · exact Or.inr (List.mem_cons.mpr (Or.inl heq))
      · rcases ih hmem with hl | hr
        · exact Or.inl hl
        · exact Or.inr (List.mem_cons_of_mem _ hr)

theorem mapGet_mem (m : List (String × LedgerEntry)) (k : String)
    (e : LedgerEntry) (h : mapGet m k = some e) : (k, e) ∈ m := by
  induction m with
  | nil => cases h
  | cons f rest ih =>
    rcases f with ⟨k0, v0⟩
    by_cases hk : k0 = k
    · rw [mapGet, if_pos hk] at h
      cases h
      subst hk
      exact List.mem_cons_self _ _
    · rw [mapGet, if_neg hk] at h
      exact List.mem_cons_of_mem _ (ih h)

theorem mem_setAdd (s : List String) (x d : String) :
    d ∈ setAdd s x ↔ d ∈ s ∨ d = x := by
  unfold setAdd
  by_cases hx : x ∈ s
  · simp only [if_pos hx]
    constructor
    · exact Or.inl
    · rintro (h | rfl)
      · exact h
      · exact hx
  · simp [if_neg hx]

theorem mem_foldl_setAdd (l : List (Descriptor × Locator)) (s : List String)
    (d : String) :
    d ∈ l.foldl (fun acc x => setAdd acc x.2.locatorHash) s ↔
      d ∈ s ∨ ∃ x ∈ l, x.2.locatorHash = d := by
  induction l generalizing s with
  | nil => simp
  | cons a l ih =>
    rw [List.foldl_cons, ih, mem_setAdd]
    constructor
    · rintro ((h | h) | ⟨x, hx, hd⟩)
      · exact Or.inl h
      · exact Or.inr ⟨a, List.mem_cons_self _ _, h.symm⟩
      · exact Or.inr ⟨x, List.mem_cons_of_mem _ hx, hd⟩
    · rintro (h | ⟨x, hx, hd⟩)
      · exact Or.inl (Or.inl h)
      · rcases List.mem_cons.mp hx with rfl | hmem
        · exact Or.inl (Or.inr hd.symm)
        · exact Or.inr ⟨x, hmem, hd⟩

/-! ## Characterization of `installPackage` -/

theorem installPackage_eq_ok (opts : Project) (st : InstallerState) (fs : FS)
    (pkg : Package) (fetchResult : FetchResult) (hEn : st.enabled = true) :
    installPackage opts st fs pkg fetchResult =
      .ok
        ({ st with
            dependencies :=
              mapSet st.dependencies pkg.locatorHash
                ⟨pkg, installLocation opts pkg fetchResult, []⟩ },
         installFs opts fs pkg fetchResult,
         ⟨installLocation opts pkg fetchResult, none⟩) := by
  simp [installPackage, hEn, installLocation, installFs, isHardLinkDecision]

theorem installPackage_ok_inv (opts : Project) (st : InstallerState) (fs : FS)
    (pkg : Package) (fetchResult : FetchResult) (st' : InstallerState)
    (fs' : FS) (res : InstallPackageResult)
    (h : installPackage opts st fs pkg fetchResult = .ok (st', fs', res)) :
    st.enabled = true ∧
    st' = { st with
      dependencies :=
        mapSet st.dependencies pkg.locatorHash
          ⟨pkg, installLocation opts pkg fetchResult, []⟩ } ∧
    fs' = installFs opts fs pkg fetchResult ∧
    res = ⟨installLocation opts pkg fetchResult, none⟩ := by
  have hEn : st.enabled = true := by
    cases hE : st.enabled
    · rw [installPackage, if_pos hE] at h
      cases h
    · rfl
  rw [installPackage_eq_ok opts st fs pkg fetchResult hEn] at h
  injection h with h'
  exact ⟨hEn, (congrArg Prod.fst h').symm,
    (congrArg (fun x => x.2.1) h').symm,
    (congrArg (fun x => x.2.2) h').symm⟩

theorem isHardLinkDecision_iff (opts : Project) (pkg : Package) :
    isHardLinkDecision opts pkg = true ↔
      (pkg.linkType = LinkType.hard ∧ tryWorkspaceByLocator opts pkg = false) := by
  unfold isHardLinkDecision
  cases h : tryWorkspaceByLocator opts pkg <;>
    cases hl : pkg.linkType <;> simp [h, hl]

/-! ## Claim theorems -/

/-- C1 (amended): when the feature is enabled and `installPackage`
returns, a package is copied into the vendor tree iff its link type is
hard and it is not a workspace member; in that case the returned final
location is the per-package vendor path, every pre-existing destination
file keeps its prior content (the copy is no-clobber), and — provided no
file pre-existed under the per-package vendor path — the destination
content below that path is exactly the source content at the fetch
result's prefix path.  In the other case the filesystem is untouched. -/
theorem c1_copy_iff_hard_nonworkspace (opts : Project) (st : InstallerState)
    (fs : FS) (pkg : Package) (fetchResult : FetchResult)
    (st' : InstallerState) (fs' : FS) (res : InstallPackageResult)
    (hOk : installPackage opts st fs pkg fetchResult = .ok (st', fs', res)) :
    ((pkg.linkType = LinkType.hard ∧ tryWorkspaceByLocator opts pkg = false) →
      res.packageLocation = getVendoredPackagePath opts pkg ∧
      (∀ p c, fsLookup fs p = some c → fsLookup fs' p = some c) ∧
      ((∀ r, fsLookup fs (getVendoredPackagePath opts pkg ++ r) = none) →
        ∀ r, fsLookup fs' (getVendoredPackagePath opts pkg ++ r) =
          fsLookup fetchResult.files r)) ∧
    (¬(pkg.linkType = LinkType.hard ∧ tryWorkspaceByLocator opts pkg = false) →
      fs' = fs) := by
  obtain ⟨hEn, hst, hfs, hres⟩ :=
    installPackage_ok_inv opts st fs pkg fetchResult st' fs' res hOk
  constructor
  · rintro ⟨hHard, hWs⟩
    have hd : isHardLinkDecision opts pkg = true :=
      (isHardLinkDecision_iff opts pkg).mpr ⟨hHard, hWs⟩
    refine ⟨by rw [hres]; simp [installLocation, hd], ?_, ?_⟩
    · intro p c hc
      rw [hfs, installFs, if_pos hd]
      exact fsLookup_copyNoOverwrite_of_some _ _ _ _ _ hc
    · intro hEmpty r
      rw [hfs, installFs, if_pos hd, fsLookup_copyNoOverwrite, hEmpty r]
      rfl
  · intro hn
    have hd : isHardLinkDecision opts pkg = false := by
      cases h : isHardLinkDecision opts pkg
      · rfl
      · exact absurd ((isHardLinkDecision_iff opts pkg).mp h) hn
    rw [hfs, installFs, if_neg (by simp [hd])]

/-- C1 counterexample: the claim as stated fails on a pre-populated
vendor destination.  `c1pkg` is hard-linked and not a workspace member,
the install succeeds, yet after it the destination file `a` still holds
the pre-existing content `old`, not the source content `new` — the copy
is no-clobber, so destination content need not equal source content. -/
theorem c1_counterexample :
    c1pkg.linkType = LinkType.hard ∧
    tryWorkspaceByLocator c1opts c1pkg = false ∧
    (installPackage c1opts c1start c1fs c1pkg c1fetch).toOption = some c1after ∧
    fsLookup c1after.2.1 (getVendoredPackagePath c1opts c1pkg ++ ["a"]) = some "old" ∧
    fsLookup c1fetch.files ["a"] = some "new" ∧
    fsLookup c1after.2.1 (getVendoredPackagePath c1opts c1pkg ++ ["a"]) ≠
      fsLookup c1fetch.files ["a"] := by
  decide

/-- C1 witness: on an empty filesystem the amended theorem yields that
the vendored copy of `c1pkg` holds exactly the fetched content of `a`. -/
theorem c1_copy_iff_hard_nonworkspace_witness :
    fsLookup c1w.2.1 (getVendoredPackagePath c1opts c1pkg ++ ["a"]) =
      fsLookup c1fetch.files ["a"] := by
  have h := c1_copy_iff_hard_nonworkspace c1opts c1start [] c1pkg c1fetch
    c1w.1 c1w.2.1 c1w.2.2 rfl
  exact (h.1 (by decide)).2.2 (fun r => rfl) ["a"]

/-- C2: a second `installPackage` call for the same package with the same
content succeeds and leaves the filesystem exactly as the first call left
it — in particular no file present before the second call is overwritten
(`overwrite: false` skips every destination file the first copy already
created). -/
theorem c2_second_install_noop (opts : Project) (st : InstallerState)
    (fs : FS) (pkg : Package) (fetchResult : FetchResult)
    (st1 : InstallerState) (fs1 : FS) (res1 : InstallPackageResult)
    (h1 : installPackage opts st fs pkg fetchResult = .ok (st1, fs1, res1)) :
    ∃ st2 res2,
      installPackage opts st1 fs1 pkg fetchResult = .ok (st2, fs1, res2) := by
  obtain ⟨hEn, hst, hfs, hres⟩ :=
    installPackage_ok_inv opts st fs pkg fetchResult st1 fs1 res1 h1
  have hEn1 : st1.enabled = true := by
    rw [hst]
    exact hEn
  have hfs2 : installFs opts fs1 pkg fetchResult = fs1 := by
    by_cases hd : isHardLinkDecision opts pkg = true
    · rw [installFs, if_pos hd]
      apply copyNoOverwrite_eq_self
      intro r c hm
      rw [hfs, installFs, if_pos hd, fsExists, fsLookup_copyNoOverwrite]
      rcases Option.isSome_iff_exists.mp (fsLookup_isSome_of_mem _ r c hm)
        with ⟨c', hc'⟩
      rcases h0 : fsLookup fs (getVendoredPackagePath opts pkg ++ r)
        with _ | c0 <;> simp [optOr, h0, hc']
    · rw [installFs, if_neg hd]
  have h2 := installPackage_eq_ok opts st1 fs1 pkg fetchResult hEn1
  rw [hfs2] at h2
  exact ⟨_, _, h2⟩

/-- C2 witness: installing `c2pkg` a second time over the state and
filesystem produced by the first install succeeds with the filesystem
unchanged. -/
theorem c2_second_install_noop_witness :
    ∃ st2 res2,
      installPackage c2opts c2first.1 c2first.2.1 c2pkg c2fetch =
        .ok (st2, c2first.2.1, res2) :=
  c2_second_install_noop c2opts ⟨true, []⟩ [] c2pkg c2fetch
    c2first.1 c2first.2.1 c2first.2.2 rfl

/-- C3: for a package whose link type is soft or that is a workspace
member, `installPackage` leaves the filesystem completely untouched (so
nothing is written under the vendor root) and returns the resolved
absolute path of the content filesystem's real path joined with the
prefix path. -/
theorem c3_reference_no_copy (opts : Project) (st : InstallerState)
    (fs : FS) (pkg : Package) (fetchResult : FetchResult)
    (st' : InstallerState) (fs' : FS) (res : InstallPackageResult)
    (hSoft : pkg.linkType = LinkType.soft ∨ tryWorkspaceByLocator opts pkg = true)
    (hOk : installPackage opts st fs pkg fetchResult = .ok (st', fs', res)) :
    fs' = fs ∧
    res.packageLocation = ppathResolve fetchResult.realPath fetchResult.prefixPath := by
  obtain ⟨hEn, hst, hfs, hres⟩ :=
    installPackage_ok_inv opts st fs pkg fetchResult st' fs' res hOk
  have hd : isHardLinkDecision opts pkg = false := by
    rcases hSoft with h | h <;> unfold isHardLinkDecision <;> rw [h] <;> simp
  constructor
  · rw [hfs, installFs, if_neg (by simp [hd])]
  · rw [hres]
    simp [installLocation, hd]

/-- C3 witness: installing the workspace package `c3pkg` leaves the
(empty) filesystem unchanged and returns its content's resolved path. -/
theorem c3_reference_no_copy_witness :
    c3after.2.1 = ([] : FS) ∧
    c3after.2.2.packageLocation = ppathResolve c3fetch.realPath c3fetch.prefixPath :=
  c3_reference_no_copy c3opts ⟨true, []⟩ [] c3pkg c3fetch
    c3after.1 c3after.2.1 c3after.2.2 (Or.inl rfl) rfl

/-- C6: with the feature disabled, `installPackage` throws the
`UsageError` whose message names the `dmLinker` configuration flag; with
the feature enabled it never throws that (or any) error. -/
theorem c6_feature_flag_gate (opts : Project) (st : InstallerState)
    (fs : FS) (pkg : Package) (fetchResult : FetchResult) :
    (st.enabled = false →
      installPackage opts st fs pkg fetchResult =
        .error (.usageError featureDisabledMessage) ∧
      ∃ pre post, featureDisabledMessage = pre ++ "dmLinker" ++ post) ∧
    (st.enabled = true →
      ∃ out, installPackage opts st fs pkg fetchResult = .ok out) := by
  constructor
  · intro hDis
    exact ⟨by rw [installPackage, if_pos hDis],
      ⟨"Installing DM packages requires \"", ": true\" in .yarnrc.yml",
        by decide⟩⟩
  · intro hEn
    exact ⟨_, installPackage_eq_ok opts st fs pkg fetchResult hEn⟩

/-- C6 witness: the disabled branch throws the flag-naming error on a
concrete package; the enabled branch succeeds on the same package. -/
theorem c6_feature_flag_gate_witness :
    (installPackage c6opts ⟨false, []⟩ [] c6pkg c6fetch =
      .error (.usageError featureDisabledMessage) ∧
      ∃ pre post, featureDisabledMessage = pre ++ "dmLinker" ++ post) ∧
    ∃ out, installPackage c6opts ⟨true, []⟩ [] c6pkg c6fetch = .ok out :=
  ⟨(c6_feature_flag_gate c6opts ⟨false, []⟩ [] c6pkg c6fetch).1 rfl,
   (c6_feature_flag_gate c6opts ⟨true, []⟩ [] c6pkg c6fetch).2 rfl⟩

/-- C7: with the feature disabled, `finalizeInstall` recursively removes
the vendor tree and writes nothing: afterwards no file exists at or below
the vendor root, and every other file — in particular the path map file
and the include file — is exactly as before, so neither artifact is
written. -/
theorem c7_disabled_finalize_removes_vendor (opts : Project)
    (st : InstallerState) (fs : FS) (hDis : st.enabled = false) :
    ∀ p, fsLookup (finalizeInstall opts st fs) p =
      if pathUnder (getVendorPath opts) p = true then none else fsLookup fs p := by
  intro p
  rw [finalizeInstall, if_pos hDis]
  exact fsLookup_fsRemoveTree _ _ _

/-- C7 witness: on a concrete filesystem with a stale vendored file and
an unrelated file, disabled finalize deletes the former and keeps the
latter. -/
theorem c7_disabled_finalize_removes_vendor_witness :
    fsLookup (finalizeInstall c7opts ⟨false, []⟩ c7fs)
      ["proj", ".vendor", "hashA", "a"] = none ∧
    fsLookup (finalizeInstall c7opts ⟨false, []⟩ c7fs)
      ["proj", "keep.txt"] = some "kept" := by
  have h1 := c7_disabled_finalize_removes_vendor c7opts ⟨false, []⟩ c7fs rfl
    ["proj", ".vendor", "hashA", "a"]
  have h2 := c7_disabled_finalize_removes_vendor c7opts ⟨false, []⟩ c7fs rfl
    ["proj", "keep.txt"]
  rw [h1, h2]
  exact ⟨by decide, by decide⟩

/-- C8: `attachInternalDependencies` throws the registration assertion
error exactly when the ledger has no entry for the locator; when an entry
exists, the call succeeds and the entry's dependency set afterwards is
the set union of its previous content and the given dependency locator
hashes (so repeated calls are safe), with locator and location
untouched. -/
theorem c8_attach_contract (opts : Project) (st : InstallerState)
    (locator : Locator) (dependencies : List (Descriptor × Locator)) :
    ((∃ m, attachInternalDependencies opts st locator dependencies =
        .error (.assertionFailed m)) ↔
      mapGet st.dependencies locator.locatorHash = none) ∧
    (∀ e, mapGet st.dependencies locator.locatorHash = some e →
      ∃ st', attachInternalDependencies opts st locator dependencies = .ok st' ∧
        ∃ e', mapGet st'.dependencies locator.locatorHash = some e' ∧
          e'.packageLocator = e.packageLocator ∧
          e'.packageLocation = e.packageLocation ∧
          ∀ d, d ∈ e'.packageDependencies ↔
            (d ∈ e.packageDependencies ∨
              ∃ x ∈ dependencies, x.2.locatorHash = d)) := by
  rcases hm : mapGet st.dependencies locator.locatorHash with _ | e
  · constructor
    · constructor
      · intro _
        rfl
      · intro _
        exact ⟨_, by rw [attachInternalDependencies, hm]⟩
    · intro e he
      cases he
  · have hattach : attachInternalDependencies opts st locator dependencies =
        .ok { st with
          dependencies :=
            mapSet st.dependencies locator.locatorHash
              { e with
                packageDependencies :=
                  dependencies.foldl (fun s d => setAdd s d.2.locatorHash)
                    e.packageDependencies } } := by
      rw [attachInternalDependencies, hm]
    constructor
    · constructor
      · rintro ⟨m, hmm⟩
        rw [hattach] at hmm
        cases hmm
      · intro h
        cases h
    · intro e0 he0
      injection he0 with he0
      subst he0
      refine ⟨_, hattach, ⟨_, mapGet_mapSet_self _ _ _, rfl, rfl, ?_⟩⟩
      intro d
      exact mem_foldl_setAdd dependencies e.packageDependencies d

/-- C8 witness: on a ledger holding only `c8pkg`, attaching to a
missing locator errors, and attaching a dependency to `c8pkg` succeeds
with the dependency's hash in the entry's set. -/
theorem c8_attach_contract_witness :
    ((∃ m, attachInternalDependencies c8opts ⟨true, []⟩ c8dep
        [] = .error (.assertionFailed m)) ↔
      mapGet (⟨true, []⟩ : InstallerState).dependencies c8dep.locatorHash = none) ∧
    (∃ st', attachInternalDependencies c8opts c8st c8pkg.toLocator
        [(⟨"descE"⟩, c8dep)] = .ok st' ∧
      ∃ e', mapGet st'.dependencies c8pkg.toLocator.locatorHash = some e' ∧
        e'.packageLocator = c8pkg ∧
        e'.packageLocation = (["proj", ".vendor", "hashD"] : Path) ∧
        ∀ d, d ∈ e'.packageDependencies ↔
          (d ∈ ([] : List String) ∨
            ∃ x ∈ [((⟨"descE"⟩ : Descriptor), c8dep)], x.2.locatorHash = d)) :=
  ⟨(c8_attach_contract c8opts ⟨true, []⟩ c8dep []).1,
   (c8_attach_contract c8opts c8st c8pkg.toLocator [(⟨"descE"⟩, c8dep)]).2
     ⟨c8pkg, ["proj", ".vendor", "hashD"], []⟩ rfl⟩

/-- C10: re-installing a package already in the ledger replaces its entry
with a fresh one whose dependency set is empty, even if dependencies had
been attached in between — so those attached dependencies are discarded
from the ledger. -/
theorem c10_reinstall_resets_dependencies (opts : Project)
    (st : InstallerState) (fs : FS) (pkg : Package) (fetchResult : FetchResult)
    (deps : List (Descriptor × Locator)) (st1 : InstallerState) (fs1 : FS)
    (res1 : InstallPackageResult) (st2 : InstallerState)
    (st3 : InstallerState) (fs3 : FS) (res3 : InstallPackageResult)
    (_h1 : installPackage opts st fs pkg fetchResult = .ok (st1, fs1, res1))
    (_h2 : attachInternalDependencies opts st1 pkg.toLocator deps = .ok st2)
    (h3 : installPackage opts st2 fs1 pkg fetchResult = .ok (st3, fs3, res3)) :
    mapGet st3.dependencies pkg.locatorHash =
      some ⟨pkg, res3.packageLocation, []⟩ := by
  obtain ⟨hEn3, hst3, hfs3, hres3⟩ :=
    installPackage_ok_inv opts st2 fs1 pkg fetchResult st3 fs3 res3 h3
  rw [hst3, hres3]
  exact mapGet_mapSet_self _ _ _

/-- C9 counterexample: two packages that agree on identity hash, name
and link type and differ only in the virtual marker of their reference
produce the same filesystem effect and the same returned result, but the
recorded ledger entries differ: the entry stores the package locator
verbatim, virtual marker included.  So the run outcomes are not equal as
the claim states. -/
theorem c9_counterexample :
    isVirtualLocator c9p1.toLocator = false ∧
    isVirtualLocator c9p2.toLocator = true ∧
    c9p1.locatorHash = c9p2.locatorHash ∧
    c9p1.linkType = c9p2.linkType ∧
    c9p1.name = c9p2.name ∧
    c9after1.2.1 = c9after2.2.1 ∧
    c9after1.2.2 = c9after2.2.2 ∧
    mapGet c9after1.1.dependencies "hashF" ≠
      mapGet c9after2.1.dependencies "hashF" := by
  decide

/-- C9 (amended): two successful `installPackage` runs from the same
state that differ only in the package's virtual status (same locator
hash, same link type) produce the same filesystem, the same returned
result, and ledger entries agreeing on location and dependency set; only
the locator stored in the entry reflects the virtual status, because the
package object is passed through verbatim. -/
theorem c9_virtual_status_irrelevant (opts : Project) (st : InstallerState)
    (fs : FS) (p1 p2 : Package) (fetchResult : FetchResult)
    (hHash : p1.locatorHash = p2.locatorHash) (hLink : p1.linkType = p2.linkType)
    (st1 : InstallerState) (fs1 : FS) (r1 : InstallPackageResult)
    (st2 : InstallerState) (fs2 : FS) (r2 : InstallPackageResult)
    (h1 : installPackage opts st fs p1 fetchResult = .ok (st1, fs1, r1))
    (h2 : installPackage opts st fs p2 fetchResult = .ok (st2, fs2, r2)) :
    fs1 = fs2 ∧ r1 = r2 ∧
    ∃ e1 e2,
      mapGet st1.dependencies p1.locatorHash = some e1 ∧
      mapGet st2.dependencies p2.locatorHash = some e2 ∧
      e1.packageLocation = e2.packageLocation ∧
      e1.packageDependencies = e2.packageDependencies ∧
      e1.packageLocator = p1 ∧ e2.packageLocator = p2 := by
  obtain ⟨hEn1, hst1, hfs1, hr1⟩ :=
    installPackage_ok_inv opts st fs p1 fetchResult st1 fs1 r1 h1
  obtain ⟨hEn2, hst2, hfs2, hr2⟩ :=
    installPackage_ok_inv opts st fs p2 fetchResult st2 fs2 r2 h2
  have hdec : isHardLinkDecision opts p1 = isHardLinkDecision opts p2 := by
    unfold isHardLinkDecision tryWorkspaceByLocator
    rw [hHash, hLink]
  have hvendor : getVendoredPackagePath opts p1 = getVendoredPackagePath opts p2 := by
    unfold getVendoredPackagePath
    rw [hHash]
  have hloc : installLocation opts p1 fetchResult = installLocation opts p2 fetchResult := by
    unfold installLocation
    rw [hdec, hvendor]
  have hfs : installFs opts fs p1 fetchResult = installFs opts fs p2 fetchResult := by
    unfold installFs
    rw [hdec, hvendor]
  refine ⟨by rw [hfs1, hfs2, hfs], by rw [hr1, hr2, hloc], ?_⟩
  refine ⟨⟨p1, installLocation opts p1 fetchResult, []⟩,
    ⟨p2, installLocation opts p2 fetchResult, []⟩, ?_, ?_, hloc, rfl, rfl, rfl⟩
  · rw [hst1]
    exact mapGet_mapSet_self _ _ _
  · rw [hst2]
    exact mapGet_mapSet_self _ _ _

/-- C9 witness: the amended theorem applied to the concrete pair
`c9p1`/`c9p2` (non-virtual vs virtual instantiation of one package). -/
theorem c9_virtual_status_irrelevant_witness :
    c9after1.2.1 = c9after2.2.1 ∧ c9after1.2.2 = c9after2.2.2 ∧
    ∃ e1 e2,
      mapGet c9after1.1.dependencies c9p1.locatorHash = some e1 ∧
      mapGet c9after2.1.dependencies c9p2.locatorHash = some e2 ∧
      e1.packageLocation = e2.packageLocation ∧
      e1.packageDependencies = e2.packageDependencies ∧
      e1.packageLocator = c9p1 ∧ e2.packageLocator = c9p2 :=
  c9_virtual_status_irrelevant c9opts ⟨true, []⟩ [] c9p1 c9p2 c9fetch rfl rfl
    c9after1.1 c9after1.2.1 c9after1.2.2 c9after2.1 c9after2.2.1 c9after2.2.2
    rfl rfl

/-- C10 witness: after installing `c10pkg`, attaching `c10dep` to it and
re-installing, the ledger entry for `c10pkg` has an empty dependency
set. -/
theorem c10_reinstall_resets_dependencies_witness :
    mapGet c10second.1.dependencies c10pkg.locatorHash =
      some ⟨c10pkg, c10second.2.2.packageLocation, []⟩ :=
  c10_reinstall_resets_dependencies c10opts ⟨true, []⟩ [] c10pkg c10fetch
    [(⟨"descH"⟩, c10dep)] c10first.1 c10first.2.1 c10first.2.2 c10attached
    c10second.1 c10second.2.1 c10second.2.2 rfl rfl rfl

theorem strJoin_buildIncludeList (fs : FS) (dir : Path)
    (l : List (String × LedgerEntry)) :
    strJoin ((buildIncludeList fs dir l).map
      (fun p => "#include \"" ++ renderPath p ++ "\"\n")) =
    strJoin (l.map (fun e =>
      if fsExists fs (e.2.packageLocation ++ ["includes.dm"]) then
        "#include \"" ++
          renderPath (ppathRelative dir (e.2.packageLocation ++ ["includes.dm"])) ++
          "\"\n"
      else "")) := by
  induction l with
  | nil => rfl
  | cons e rest ih =>
    by_cases h : fsExists fs (e.2.packageLocation ++ ["includes.dm"]) = true
    · rw [buildIncludeList, if_pos h, List.map_cons, List.map_cons, strJoin,
        strJoin, if_pos h, ih]
    · rw [buildIncludeList, if_neg h, List.map_cons, strJoin, if_neg h, ih]
      exact (String.empty_append _).symm

/-- C5: the generated include file is the auto-generated banner followed
by, for each ledger entry in ledger order, nothing when no `includes.dm`
exists at the package's final location, and exactly one line
`#include "relative/path"` — the manifest's path relative to the include
file's directory — when it does. -/
theorem c5_include_aggregation (opts : Project) (st : InstallerState) (fs : FS) :
    writeIncludesContent opts st fs =
      includeBanner ++
        strJoin (st.dependencies.map (fun e =>
          if fsExists fs (e.2.packageLocation ++ ["includes.dm"]) then
            "#include \"" ++
              renderPath (ppathRelative (getIncludePath opts).dropLast
                (e.2.packageLocation ++ ["includes.dm"])) ++ "\"\n"
          else "")) := by
  rw [writeIncludesContent, strJoin_buildIncludeList]

/-! ## C4: ledger locations are normalized, and the path map round-trips -/

theorem dotdotFree_append (a b : Path) :
    dotdotFree (a ++ b) = (dotdotFree a && dotdotFree b) := by
  simp [dotdotFree, List.all_append]

theorem sanitizeIdentity_ne_dotdot (s : String) : sanitizeIdentity s ≠ ".." := by
  unfold sanitizeIdentity
  by_cases h : s = "" ∨ s = "." ∨ s = ".."
  · rw [if_pos h]
    decide
  · rw [if_neg h]
    intro hs
    exact h (Or.inr (Or.inr hs))

theorem installLocation_dotdotFree (opts : Project) (pkg : Package)
    (fetchResult : FetchResult) (hcwd : dotdotFree opts.cwd = true) :
    dotdotFree (installLocation opts pkg fetchResult) = true := by
  unfold installLocation
  by_cases hd : isHardLinkDecision opts pkg = true
  · rw [if_pos hd]
    unfold getVendoredPackagePath getVendorPath
    rw [dotdotFree_append, dotdotFree_append, hcwd]
    have h1 : dotdotFree [".vendor"] = true := by decide
    have h2 : dotdotFree [sanitizeIdentity pkg.locatorHash] = true := by
      simp [dotdotFree, sanitizeIdentity_ne_dotdot pkg.locatorHash]
    rw [h1, h2]
    rfl
  · rw [if_neg hd]
    exact dotdotFree_normalizePath _

theorem applyOp_ledgerNormalized (opts : Project)
    (hcwd : dotdotFree opts.cwd = true) (s : InstallerState × FS)
    (hs : ledgerNormalized s.1) (op : Op) :
    ledgerNormalized (applyOp opts s op).1 := by
  rcases op with ⟨pkg, fetchResult⟩ | ⟨locator, dependencies⟩
  · cases hres : installPackage opts s.1 s.2 pkg fetchResult with
    | error e =>
      simp only [applyOp, hres]
      exact hs
    | ok out =>
      obtain ⟨st', fs', res⟩ := out
      obtain ⟨hEn, hst, hfs, hresq⟩ :=
        installPackage_ok_inv opts s.1 s.2 pkg fetchResult st' fs' res hres
      simp only [applyOp, hres]
      intro k e hm
      rw [hst] at hm
      rcases mem_mapSet _ _ _ _ _ hm with ⟨hk, he⟩ | hmem
      · rw [he]
        exact installLocation_dotdotFree opts pkg fetchResult hcwd
      · exact hs k e hmem
  · cases hres : attachInternalDependencies opts s.1 locator dependencies with
    | error e =>
      simp only [applyOp, hres]
      exact hs
    | ok st' =>
      simp only [applyOp, hres]
      rcases hm : mapGet s.1.dependencies locator.locatorHash with _ | entry
      · rw [attachInternalDependencies, hm] at hres
        cases hres
      · rw [attachInternalDependencies, hm] at hres
        injection hres with hres
        intro k e hmem
        rw [← hres] at hmem
        rcases mem_mapSet _ _ _ _ _ hmem with ⟨hk, he⟩ | hmem'
        · rw [he]
          exact hs locator.locatorHash entry (mapGet_mem _ _ _ hm)
        · exact hs k e hmem'

theorem runOps_ledgerNormalized (opts : Project)
    (hcwd : dotdotFree opts.cwd = true) (s : InstallerState × FS)
    (hs : ledgerNormalized s.1) (ops : List Op) :
    ledgerNormalized (runOps opts s ops).1 := by
  induction ops generalizing s with
  | nil => exact hs
  | cons op rest ih =>
    exact ih (applyOp opts s op) (applyOp_ledgerNormalized opts hcwd s hs op)

/-- C4: after any run of lifecycle calls from a fresh installer (project
root normalized), every ledger entry has a matching path-map entry keyed
by its identity, and resolving that entry's relative path against the
project root recovers exactly the recorded final location. -/
theorem c4_pathmap_roundtrip (opts : Project) (fs0 : FS) (ops : List Op)
    (hcwd : dotdotFree opts.cwd = true) :
    ∀ k e, (k, e) ∈ (runOps opts (initState opts, fs0) ops).1.dependencies →
      (k, ppathRelative opts.cwd e.packageLocation) ∈
        writePathMapData opts (runOps opts (initState opts, fs0) ops).1 ∧
      ppathResolve opts.cwd (ppathRelative opts.cwd e.packageLocation) =
        e.packageLocation := by
  intro k e hm
  have hinit : ledgerNormalized (initState opts) := by
    intro k' e' h
    cases h
  have hnorm :=
    runOps_ledgerNormalized opts hcwd (initState opts, fs0) hinit ops
  constructor
  · exact List.mem_map_of_mem _ hm
  · exact ppathResolve_ppathRelative _ _ hcwd (hnorm k e hm)

/-- C4 witness: in the concrete two-package run `c4ops` (one vendored
package, one workspace member), the vendored package's ledger entry
round-trips through the path map. -/
theorem c4_pathmap_roundtrip_witness :
    ("hashA", ppathRelative c4opts.cwd (["proj", ".vendor", "hashA"] : Path)) ∈
      writePathMapData c4opts c4run.1 ∧
    ppathResolve c4opts.cwd
      (ppathRelative c4opts.cwd (["proj", ".vendor", "hashA"] : Path)) =
      (["proj", ".vendor", "hashA"] : Path) :=
  c4_pathmap_roundtrip c4opts [] c4ops (by decide) "hashA"
    ⟨c4pkgHard, ["proj", ".vendor", "hashA"], []⟩ (by decide)

end DmInstaller
